import Mathlib

/-!
Verification of the presence and classification core of the efferve WiFi
device-registry system, as a shallow embedding of the Python source.

Strings are modelled as `List Char` (Python `str.upper` is modelled on the
ASCII range via `Char.toUpper`, which agrees with Python for MAC spellings).
`datetime` values are modelled as integer UTC seconds; gaps computed with
`total_seconds()` become integer subtraction.  Database sessions become
explicit in-memory tables (lists or lookup functions) threaded through the
operations.  External effects (OUI vendor lookup, HTTP webhook delivery) are
modelled as oracle function parameters.
-/

/-! ## MAC normalization (`efferve/registry/store.py`) -/

theorem char_toNat_ofNat {n : Nat} (h : Nat.isValidChar n) : (Char.ofNat n).toNat = n := by
  rw [Char.ofNat, dif_pos h]; rfl

theorem char_eq_iff_toNat {a b : Char} : a = b ↔ a.toNat = b.toNat := by
  constructor
  · rintro rfl; rfl
  · intro h
    exact Char.ext (UInt32.toNat.inj h)

theorem toNat_toUpper (c : Char) :
    c.toUpper.toNat = if 97 ≤ c.toNat ∧ c.toNat ≤ 122 then c.toNat - 32 else c.toNat := by
  show (if c.toNat ≥ 97 ∧ c.toNat ≤ 122 then Char.ofNat (c.toNat - 32) else c).toNat = _
  by_cases h : 97 ≤ c.toNat ∧ c.toNat ≤ 122
  · rw [if_pos ⟨h.1, h.2⟩, if_pos h]
    exact char_toNat_ofNat (Or.inl (by omega))
  · rw [if_neg (by exact h), if_neg h]

theorem toUpper_idem (c : Char) : c.toUpper.toUpper = c.toUpper := by
  rw [char_eq_iff_toNat, toNat_toUpper, toNat_toUpper]
  by_cases h : 97 ≤ c.toNat ∧ c.toNat ≤ 122
  · rw [if_pos h, if_neg (by omega)]
  · rw [if_neg h, if_neg h]


/-- Python `if c == '-': ':' else c`, the effect of `.replace("-", ":")` per char. -/
def dashToColon (c : Char) : Char := if c = '-' then ':' else c

/-- Model of `mac.upper().replace("-", ":").replace(".", "")` on a char list. -/
def pyClean (mac : List Char) : List Char :=
  (((mac.map Char.toUpper).map dashToColon).filter (fun c => c ≠ '.'))

/-- Insert a separator after every second char: models
`":".join(s[i:i+2] for i in range(0, len, 2))` for even-length strings. -/
def sepEvery2 (sep : Char) : List Char → List Char
  | a :: b :: c :: rest => a :: b :: sep :: sepEvery2 sep (c :: rest)
  | l => l

/-- Dotted (Cisco-style) spelling: separator after every fourth char. -/
def sepEvery4 (sep : Char) : List Char → List Char
  | a :: b :: c :: d :: e :: rest => a :: b :: c :: d :: sep :: sepEvery4 sep (e :: rest)
  | l => l

def normalize_mac (mac : List Char) : List Char :=
  let cleaned := pyClean mac
  if ':' ∉ cleaned ∧ cleaned.length = 12 then sepEvery2 ':' cleaned else cleaned


/-- The characters accepted as hex digits in a MAC spelling. -/
def hexChars : List Char :=
  ['0','1','2','3','4','5','6','7','8','9','A','B','C','D','E','F','a','b','c','d','e','f']

def isHexChar (c : Char) : Prop := c ∈ hexChars

instance (c : Char) : Decidable (isHexChar c) :=
  inferInstanceAs (Decidable (c ∈ hexChars))

theorem hex_toUpper_facts {c : Char} (h : isHexChar c) :
    Char.toUpper c ≠ ':' ∧ Char.toUpper c ≠ '-' ∧ Char.toUpper c ≠ '.' := by
  simp only [isHexChar, hexChars, List.mem_cons, List.not_mem_nil, or_false] at h
  rcases h with rfl|rfl|rfl|rfl|rfl|rfl|rfl|rfl|rfl|rfl|rfl|rfl|rfl|rfl|rfl|rfl|rfl|rfl|rfl|rfl|rfl|rfl
  all_goals decide

theorem pyClean_hex {l : List Char} (h : ∀ c ∈ l, isHexChar c) :
    pyClean l = l.map Char.toUpper := by
  induction l with
  | nil => rfl
  | cons c t ih =>
    have hc := hex_toUpper_facts (h c (List.mem_cons_self c t))
    have ih' := ih (fun x hx => h x (List.mem_cons_of_mem c hx))
    simp only [pyClean, List.map_cons, List.filter_cons] at ih' ⊢
    rw [dashToColon, if_neg hc.2.1, if_pos (by simp [hc.2.2])]
    rw [ih']

theorem pyClean_cons (c : Char) (l : List Char) :
    pyClean (c :: l) =
      if dashToColon (Char.toUpper c) = '.' then pyClean l
      else dashToColon (Char.toUpper c) :: pyClean l := by
  by_cases h : dashToColon (Char.toUpper c) = '.'
  · simp [pyClean, List.filter_cons, h]
  · simp [pyClean, List.filter_cons, h]

theorem pyClean_sep2 (s : Char) (hs : s = ':' ∨ s = '-') :
    ∀ l : List Char, (∀ c ∈ l, isHexChar c) →
      pyClean (sepEvery2 s l) = sepEvery2 ':' (l.map Char.toUpper)
  | [], _ => by simp [sepEvery2, pyClean]
  | [a], h => by
    have ha := hex_toUpper_facts (h a (by simp))
    simp [sepEvery2, pyClean_cons, dashToColon, if_neg ha.2.1, ha.2.2, pyClean]
  | [a, b], h => by
    have ha := hex_toUpper_facts (h a (by simp))
    have hb := hex_toUpper_facts (h b (by simp))
    simp only [sepEvery2, List.map_cons, List.map_nil, pyClean_cons]
    rw [dashToColon, if_neg ha.2.1, dashToColon, if_neg hb.2.1]
    rw [if_neg ha.2.2, if_neg hb.2.2]
    rfl
  | a :: b :: c :: rest, h => by
    have ha := hex_toUpper_facts (h a (by simp))
    have hb := hex_toUpper_facts (h b (by simp))
    have ih := pyClean_sep2 s hs (c :: rest)
      (fun x hx => h x (List.mem_cons_of_mem a (List.mem_cons_of_mem b hx)))
    have hsep : dashToColon (Char.toUpper s) = ':' := by
      rcases hs with rfl | rfl <;> decide
    show pyClean (a :: b :: s :: sepEvery2 s (c :: rest)) = _
    rw [pyClean_cons, pyClean_cons, pyClean_cons]
    rw [dashToColon, if_neg ha.2.1, dashToColon, if_neg hb.2.1]
    rw [if_neg ha.2.2, if_neg hb.2.2, hsep]
    rw [if_neg (by decide : ¬(':' : Char) = '.')]
    rw [ih]
    rfl

theorem pyClean_sep4 :
    ∀ l : List Char, (∀ c ∈ l, isHexChar c) →
      pyClean (sepEvery4 '.' l) = l.map Char.toUpper
  | [], _ => by simp [sepEvery4, pyClean]
  | [a], h => by
    have ha := hex_toUpper_facts (h a (by simp))
    simp [sepEvery4, pyClean_cons, dashToColon, if_neg ha.2.1, ha.2.2, pyClean]
  | [a, b], h => by
    have ha := hex_toUpper_facts (h a (by simp))
    have hb := hex_toUpper_facts (h b (by simp))
    simp only [sepEvery4, List.map_cons, List.map_nil, pyClean_cons]
    rw [dashToColon, if_neg ha.2.1, dashToColon, if_neg hb.2.1]
    rw [if_neg ha.2.2, if_neg hb.2.2]
    rfl
  | [a, b, c], h => by
    have ha := hex_toUpper_facts (h a (by simp))
    have hb := hex_toUpper_facts (h b (by simp))
    have hc := hex_toUpper_facts (h c (by simp))
    simp only [sepEvery4, List.map_cons, List.map_nil, pyClean_cons]
    rw [dashToColon, if_neg ha.2.1, dashToColon, if_neg hb.2.1, dashToColon, if_neg hc.2.1]
    rw [if_neg ha.2.2, if_neg hb.2.2, if_neg hc.2.2]
    rfl
  | [a, b, c, d], h => by
    have ha := hex_toUpper_facts (h a (by simp))
    have hb := hex_toUpper_facts (h b (by simp))
    have hc := hex_toUpper_facts (h c (by simp))
    have hd := hex_toUpper_facts (h d (by simp))
    simp only [sepEvery4, List.map_cons, List.map_nil, pyClean_cons]
    rw [dashToColon, if_neg ha.2.1, dashToColon, if_neg hb.2.1, dashToColon, if_neg hc.2.1,
      dashToColon, if_neg hd.2.1]
    rw [if_neg ha.2.2, if_neg hb.2.2, if_neg hc.2.2, if_neg hd.2.2]
    rfl
  | a :: b :: c :: d :: e :: rest, h => by
    have ha := hex_toUpper_facts (h a (by simp))
    have hb := hex_toUpper_facts (h b (by simp))
    have hc := hex_toUpper_facts (h c (by simp))
    have hd := hex_toUpper_facts (h d (by simp))
    have ih := pyClean_sep4 (e :: rest)
      (fun x hx => h x (List.mem_cons_of_mem a (List.mem_cons_of_mem b
        (List.mem_cons_of_mem c (List.mem_cons_of_mem d hx)))))
    show pyClean (a :: b :: c :: d :: '.' :: sepEvery4 '.' (e :: rest)) = _
    rw [pyClean_cons, pyClean_cons, pyClean_cons, pyClean_cons, pyClean_cons]
    rw [dashToColon, if_neg ha.2.1, dashToColon, if_neg hb.2.1, dashToColon, if_neg hc.2.1,
      dashToColon, if_neg hd.2.1]
    rw [if_neg ha.2.2, if_neg hb.2.2, if_neg hc.2.2, if_neg hd.2.2]
    rw [show dashToColon (Char.toUpper '.') = '.' from by decide]
    rw [if_pos rfl, ih]
    rfl

/-- Predicate: `s` is a valid spelling of the canonical digit string `d` (12 uppercase hex
digits, no separators): some per-character casing `l` of `d`, written bare,
colon-separated, dash-separated, or dot-separated. -/
def Spelling (d s : List Char) : Prop :=
  ∃ l : List Char, l.map Char.toUpper = d ∧ (∀ c ∈ l, isHexChar c) ∧
    (s = l ∨ s = sepEvery2 ':' l ∨ s = sepEvery2 '-' l ∨ s = sepEvery4 '.' l)

theorem colon_not_mem_map_toUpper {l : List Char} (h : ∀ c ∈ l, isHexChar c) :
    ':' ∉ l.map Char.toUpper := by
  intro hmem
  rw [List.mem_map] at hmem
  obtain ⟨c, hc, hu⟩ := hmem
  exact (hex_toUpper_facts (h c hc)).1 hu

theorem colon_mem_sep2 (a b c : Char) (rest : List Char) :
    ':' ∈ sepEvery2 ':' (a :: b :: c :: rest) := by
  show ':' ∈ a :: b :: ':' :: sepEvery2 ':' (c :: rest)
  simp

theorem normalize_spelling {d s : List Char} (hd : d.length = 12) (hs : Spelling d s) :
    normalize_mac s = sepEvery2 ':' d := by
  obtain ⟨l, rfl, hhex, hcase⟩ := hs
  rw [List.length_map] at hd
  have hclean_bare : pyClean l = l.map Char.toUpper := pyClean_hex hhex
  have hnocolon : ':' ∉ l.map Char.toUpper := colon_not_mem_map_toUpper hhex
  have hlen : (l.map Char.toUpper).length = 12 := by rw [List.length_map, hd]
  obtain ⟨a, b, c, rest, rfl⟩ : ∃ a b c rest, l = a :: b :: c :: rest := by
    match l, hd with
    | x :: y :: z :: r, _ => exact ⟨x, y, z, r, rfl⟩
  rcases hcase with rfl | rfl | rfl | rfl
  · rw [normalize_mac, hclean_bare, if_pos ⟨hnocolon, hlen⟩]
  · rw [normalize_mac, pyClean_sep2 ':' (Or.inl rfl) _ hhex]
    rw [if_neg]
    rintro ⟨hno, -⟩
    exact hno (by rw [List.map_cons, List.map_cons, List.map_cons]; exact
      colon_mem_sep2 _ _ _ _)
  · rw [normalize_mac, pyClean_sep2 '-' (Or.inr rfl) _ hhex]
    rw [if_neg]
    rintro ⟨hno, -⟩
    exact hno (by rw [List.map_cons, List.map_cons, List.map_cons]; exact
      colon_mem_sep2 _ _ _ _)
  · rw [normalize_mac, pyClean_sep4 _ hhex, if_pos ⟨hnocolon, hlen⟩]

/-- A char is untouched by a second cleaning pass. -/
def CleanStable (c : Char) : Prop := Char.toUpper c = c ∧ c ≠ '-' ∧ c ≠ '.'

theorem pyClean_of_stable {l : List Char} (h : ∀ c ∈ l, CleanStable c) :
    pyClean l = l := by
  induction l with
  | nil => rfl
  | cons c t ih =>
    have hc := h c (List.mem_cons_self c t)
    rw [pyClean_cons, hc.1, dashToColon, if_neg hc.2.1, if_neg hc.2.2,
      ih (fun x hx => h x (List.mem_cons_of_mem c hx))]

theorem stable_mem_pyClean {x : List Char} {c : Char} (h : c ∈ pyClean x) :
    CleanStable c := by
  rw [pyClean, List.mem_filter] at h
  obtain ⟨hm, hdot⟩ := h
  rw [List.mem_map] at hm
  obtain ⟨u, hu, rfl⟩ := hm
  rw [List.mem_map] at hu
  obtain ⟨b, _, rfl⟩ := hu
  have hdot' : dashToColon (Char.toUpper b) ≠ '.' := by simpa using hdot
  by_cases hb : Char.toUpper b = '-'
  · rw [dashToColon, if_pos hb] at hdot' ⊢
    exact ⟨by decide, by decide, by decide⟩
  · rw [dashToColon, if_neg hb] at hdot' ⊢
    exact ⟨toUpper_idem b, hb, hdot'⟩

theorem stable_mem_sep2 {c : Char} :
    ∀ l : List Char, c ∈ sepEvery2 ':' l → c ∈ l ∨ c = ':'
  | [], h => Or.inl h
  | [a], h => Or.inl h
  | [a, b], h => Or.inl h
  | a :: b :: d :: rest, h => by
    have h' : c ∈ a :: b :: ':' :: sepEvery2 ':' (d :: rest) := h
    rcases List.mem_cons.mp h' with rfl | h'
    · exact Or.inl (by simp)
    rcases List.mem_cons.mp h' with rfl | h'
    · exact Or.inl (by simp)
    rcases List.mem_cons.mp h' with rfl | h'
    · exact Or.inr rfl
    rcases stable_mem_sep2 (d :: rest) h' with hm | rfl
    · exact Or.inl (List.mem_cons_of_mem a (List.mem_cons_of_mem b hm))
    · exact Or.inr rfl

theorem length12_shape {l : List Char} (h : l.length = 12) :
    ∃ a b c rest, l = a :: b :: c :: rest := by
  rcases l with _ | ⟨a, _ | ⟨b, _ | ⟨c, rest⟩⟩⟩
  · simp at h
  · simp at h
  · simp at h
  · exact ⟨a, b, c, rest, rfl⟩

theorem normalize_guard (x : List Char) :
    ':' ∈ normalize_mac x ∨ (normalize_mac x).length ≠ 12 := by
  simp only [normalize_mac]
  split_ifs with h1
  · obtain ⟨hno, hlen⟩ := h1
    obtain ⟨a, b, c, rest, hx⟩ := length12_shape hlen
    left
    rw [hx]
    exact colon_mem_sep2 _ _ _ _
  · by_cases hl : (pyClean x).length = 12
    · left
      by_contra hno
      exact h1 ⟨hno, hl⟩
    · right; exact hl

theorem normalize_mac_idem (x : List Char) :
    normalize_mac (normalize_mac x) = normalize_mac x := by
  have hstable : ∀ c ∈ normalize_mac x, CleanStable c := by
    intro c hc
    simp only [normalize_mac] at hc
    split_ifs at hc with h1
    · rcases stable_mem_sep2 _ hc with hm | rfl
      · exact stable_mem_pyClean hm
      · exact ⟨by decide, by decide, by decide⟩
    · exact stable_mem_pyClean hc
  have hclean : pyClean (normalize_mac x) = normalize_mac x := pyClean_of_stable hstable
  have hgu := normalize_guard x
  conv_lhs => rw [normalize_mac]
  rw [hclean]
  rcases hgu with hcol | hlen
  · rw [if_neg (fun h => h.1 hcol)]
  · rw [if_neg (fun h => hlen h.2)]
/-! ## Registry data model (`efferve/registry/models.py`, `efferve/sniffer/base.py`) -/

inductive DeviceClassification
  | resident
  | frequent
  | passerby
  | unknown
deriving DecidableEq, Repr

inductive PresenceEvent
  | arrive
  | depart
deriving DecidableEq, Repr

/-- The `Device` row (registry/models.py), keyed by normalized MAC.  Timestamps are
UTC seconds as `Int`. -/
structure Device where
  mac_address : List Char
  display_name : Option (List Char) := none
  hostname : Option (List Char) := none
  vendor : Option (List Char) := none
  first_seen : Int
  last_seen : Int
  signal_strength : Int := -100
  visit_count : Int := 1
  classification : DeviceClassification := DeviceClassification.unknown
  is_randomized_mac : Bool := false
  ap_name : Option (List Char) := none
  ssid : Option (List Char) := none
deriving DecidableEq, Repr

/-- The `BeaconEvent` record (sniffer/base.py). -/
structure BeaconEvent where
  mac_address : List Char
  signal_strength : Int
  ssid : Option (List Char)
  timestamp : Int
  source : List Char
deriving DecidableEq, Repr

/-! ## Registry store operations (`efferve/registry/store.py`) -/

/-- Gap threshold from store.py: a new visit is counted when the device
reappears after being absent for more than this long. -/
def VISIT_GAP_SECONDS : Int := 30 * 60

/-- Value of one hex digit, as `int(s, 16)` computes it per char. -/
def hexVal (c : Char) : Nat :=
  if 48 ≤ c.toNat ∧ c.toNat ≤ 57 then c.toNat - 48
  else if 65 ≤ c.toNat ∧ c.toNat ≤ 70 then c.toNat - 55
  else if 97 ≤ c.toNat ∧ c.toNat ≤ 102 then c.toNat - 87
  else 0

/-- Model of `is_locally_administered`: bit 1 (the 0x02 bit) of the first octet of the
normalized MAC.  `normalize_mac(mac).split(":")[0]` is the chars before the
first colon; `int(_, 16)` folds hex digits. -/
def is_locally_administered (mac : List Char) : Bool :=
  let first_octet := ((normalize_mac mac).takeWhile (fun c => c ≠ ':')).foldl
    (fun acc c => 16 * acc + hexVal c) 0
  first_octet &&& 2 ≠ 0

/-- Python truthiness of an optional string: `None` and `""` are falsy. -/
def pyTruthyStr : Option (List Char) → Bool
  | none => false
  | some s => s ≠ []

/-- The session's Device table, keyed by normalized MAC (`session.get(Device, mac)`). -/
def DeviceTable : Type := List Char → Option Device

/-- The update branch of `upsert_device`, for a device already in the table:
count a new visit if the gap exceeds the threshold, always update `last_seen`,
update `signal_strength` only if non-zero (0 is the no-RF-data sentinel),
update `ssid` only if truthy. -/
def upsertExisting (device0 : Device) (event : BeaconEvent) : Device :=
  let gap : Int := event.timestamp - device0.last_seen
  let device1 :=
    if gap > VISIT_GAP_SECONDS then
      { device0 with visit_count := device0.visit_count + 1 }
    else device0
  let device2 := { device1 with last_seen := event.timestamp }
  let device3 :=
    if event.signal_strength ≠ 0 then
      { device2 with signal_strength := event.signal_strength }
    else device2
  if pyTruthyStr event.ssid then { device3 with ssid := event.ssid } else device3

/-- Model of `upsert_device(session, event)`: create or update a Device from a
BeaconEvent.  The OUI vendor lookup is an oracle parameter `vendorOf`
(`lookup_vendor` returns `None` on any failure, so any total function is a
faithful model).  Returns the resulting device together with the updated
table (the committed session state). -/
def upsert_device (vendorOf : List Char → Option (List Char))
    (table : DeviceTable) (event : BeaconEvent) : Device × DeviceTable :=
  let mac := normalize_mac event.mac_address
  match table mac with
  | none =>
    let device : Device :=
      { mac_address := mac
        first_seen := event.timestamp
        last_seen := event.timestamp
        signal_strength := event.signal_strength
        visit_count := 1
        is_randomized_mac := is_locally_administered mac
        vendor := vendorOf mac
        ssid := event.ssid }
    (device, fun m => if m = mac then some device else table m)
  | some device0 =>
    let device4 := upsertExisting device0 event
    (device4, fun m => if m = mac then some device4 else table m)

/-- The `age_days` value as computed inside `classify_device`:
`(last_seen - first_seen).total_seconds() / 86400`. -/
def age_days (device : Device) : ℚ :=
  ((device.last_seen - device.first_seen : Int) : ℚ) / 86400

/-- Model of `classify_device(device)`: determine classification based on visit
patterns (store.py). -/
def classify_device (device : Device) : DeviceClassification :=
  if device.is_randomized_mac then DeviceClassification.passerby
  else if 5 ≤ device.visit_count ∧ 3 ≤ age_days device then DeviceClassification.resident
  else if 3 ≤ device.visit_count then DeviceClassification.frequent
  else if device.visit_count = 1 ∧ device.signal_strength < -75 then
    DeviceClassification.passerby
  else DeviceClassification.unknown

/-- The event-type string "arrive" passed between the detector and the alert engine. -/
def arriveStr : List Char := "arrive".toList

/-- The event-type string "depart". -/
def departStr : List Char := "depart".toList

/-- MACs of the devices currently within the grace window:
`get_present_devices` (store.py) selects devices with
`last_seen >= now - grace_seconds`. -/
def present_macs (devices : List Device) (now grace_seconds : Int) : List (List Char) :=
  (((devices.filter (fun d => now - grace_seconds ≤ d.last_seen)).map
    (fun d => d.mac_address))).dedup

/-- Modelled from the spec: `detect_presence_changes` is imported from
`efferve.registry.store` by `main.py` and exercised by
`tests/test_presence_log.py`, but the function itself is not present in the
provided source.  Per spec section 4.4 it keeps a process-wide
previously-present MAC set, computes the current present-set as a query
(devices whose `last_seen` is within `grace_seconds` of now), emits one
(mac, "arrive") per MAC in current-but-not-previous and one (mac, "depart")
per MAC in previous-but-not-current, and replaces the stored set with the
current one. -/
def detect_presence_changes (previously_present : List (List Char))
    (devices : List Device) (now grace_seconds : Int) :
    List (List Char × List Char) × List (List Char) :=
  let current := present_macs devices now grace_seconds
  let arrivals := current.filter (fun m => m ∉ previously_present)
  let departures := previously_present.filter (fun m => m ∉ current)
  ((arrivals.map (fun m => (m, arriveStr))) ++
    (departures.map (fun m => (m, departStr))), current)

/-! ## Persona layer (`efferve/persona/models.py`, `efferve/persona/engine.py`) -/

/-- The `Person` row.  `id` is `Option Int` as in the model class (None before
insert assigns a key). -/
structure Person where
  id : Option Int
  name : List Char
  created_at : Int
deriving DecidableEq, Repr

/-- The `PersonDevice` link row: composite key (person_id, mac_address). -/
structure PersonDevice where
  person_id : Int
  mac_address : List Char
deriving DecidableEq, Repr

/-- The slice of session state `assign_device` touches. -/
structure PersonaDb where
  devices : List Device
  persons : List Person
  links : List PersonDevice
deriving Repr

/-- Model of `assign_device(session, person_id, mac_address)` (persona/engine.py).
`session.get(Device, mac)` is a lookup by primary key, modelled as `find?`
on the table; `ValueError` becomes `Except.error` carrying the message
string. Returns the link and the committed session state. -/
def assign_device (db : PersonaDb) (person_id : Int) (mac_address : List Char) :
    Except (List Char) (PersonDevice × PersonaDb) :=
  let mac := normalize_mac mac_address
  match db.devices.find? (fun d => d.mac_address = mac) with
  | none => Except.error ("Device ".toList ++ mac ++ " does not exist".toList)
  | some _ =>
    let conflict : Option Int :=
      match db.links.find? (fun l => l.mac_address = mac) with
      | some link => if link.person_id ≠ person_id then some link.person_id else none
      | none => none
    match conflict with
    | some other_id =>
      let other_name :=
        match db.persons.find? (fun p => p.id = some other_id) with
        | some p => p.name
        | none => "person #".toList ++ (toString other_id).toList
      Except.error ("Device ".toList ++ mac ++ " is already assigned to ".toList ++
        other_name)
    | none =>
      match db.links.find? (fun l => l.person_id = person_id ∧ l.mac_address = mac) with
      | some link => Except.ok (link, db)
      | none =>
        let link : PersonDevice := { person_id := person_id, mac_address := mac }
        Except.ok (link, { db with links := db.links ++ [link] })

/-! ## Alert engine (`efferve/alerts/models.py`, `efferve/alerts/manager.py`) -/

inductive TriggerType
  | arrive
  | depart
  | both
deriving DecidableEq, Repr

/-- The `AlertRule` row (alerts/models.py). -/
structure AlertRule where
  id : Option Int
  name : List Char
  trigger_type : TriggerType
  person_id : Option Int
  mac_address : Option (List Char)
  webhook_url : List Char
  enabled : Bool
  created_at : Int
deriving DecidableEq, Repr

/-- The slice of session state the alert engine reads.  `rules` stands for the
AlertRule table in the `created_at`-descending order `list_rules` returns. -/
structure AlertDb where
  rules : List AlertRule
  links : List PersonDevice
  persons : List Person
deriving Repr

/-- The person resolution prologue of `evaluate_presence_change`: returns the
final values of the local variables (person_id, person_name).  If the caller
gave no (truthy) `person_name`, the code looks up a PersonDevice link for the
MAC, takes its person_id, and fetches the Person for the name; otherwise it
resolves person_id through the Person-join-PersonDevice query. -/
def resolve_person (db : AlertDb) (mac : List Char) (person_name : Option (List Char)) :
    Option Int × Option (List Char) :=
  if ¬ pyTruthyStr person_name then
    match db.links.find? (fun l => l.mac_address = mac) with
    | some link =>
      match db.persons.find? (fun p => p.id = some link.person_id) with
      | some person => (some link.person_id, some person.name)
      | none => (some link.person_id, person_name)
    | none => (none, person_name)
  else
    match (db.links.find? (fun l => l.mac_address = mac)).bind
        (fun link => db.persons.find? (fun p => p.id = some link.person_id)) with
    | some person => (person.id, person_name)
    | none => (none, person_name)

/-- A `person` sub-object of a webhook payload. -/
structure PersonRef where
  id : Int
  name : List Char
deriving DecidableEq, Repr

/-- A webhook payload dict as built by `evaluate_presence_change`; the
`_webhook_url` internal key is the `webhook_url` field (`none` models a dict
without the key). -/
structure WebhookPayload where
  event : List Char
  timestamp : List Char
  device_mac : List Char
  device_name : List Char
  person : Option PersonRef
  rule_id : Option Int
  rule_name : List Char
  webhook_url : Option (List Char)
deriving DecidableEq, Repr

/-- Payload construction for one matched rule. `device_name or mac_address`
falls back to the (normalized) MAC when the name is falsy; the `person`
sub-object is present iff `person_id and person_name` is truthy (a non-zero
id and a non-empty name). -/
def mkPayload (now_iso mac event_type : List Char) (device_name : Option (List Char))
    (person_id : Option Int) (person_name : Option (List Char)) (rule : AlertRule) :
    WebhookPayload :=
  { event := event_type
    timestamp := now_iso
    device_mac := mac
    device_name :=
      match device_name with
      | some n => if n ≠ [] then n else mac
      | none => mac
    person :=
      match person_id, person_name with
      | some pid, some pname =>
        if pid ≠ 0 ∧ pname ≠ [] then some { id := pid, name := pname } else none
      | _, _ => none
    rule_id := rule.id
    rule_name := rule.name
    webhook_url := some rule.webhook_url }

/-- Model of `evaluate_presence_change(session, mac_address, event_type, device_name,
person_name)`: check all enabled rules and return the webhook payloads.
`datetime.now(UTC).isoformat()` is the oracle parameter `now_iso`. -/
def evaluate_presence_change (db : AlertDb) (now_iso : List Char)
    (mac_address : List Char) (event_type : List Char)
    (device_name : Option (List Char)) (person_name : Option (List Char)) :
    List WebhookPayload :=
  let mac := normalize_mac mac_address
  let rules := db.rules.filter (fun r => r.enabled)
  let resolved := resolve_person db mac person_name
  rules.filterMap (fun rule =>
    if rule.trigger_type = TriggerType.arrive ∧ event_type ≠ arriveStr then none
    else if rule.trigger_type = TriggerType.depart ∧ event_type ≠ departStr then none
    else
      let matched : Bool :=
        match rule.person_id with
        | some rpid => resolved.1 = some rpid
        | none =>
          match rule.mac_address with
          | some rmac => mac = rmac
          | none => true
      if matched then
        some (mkPayload now_iso mac event_type device_name resolved.1 resolved.2 rule)
      else none)

/-- Outcome of one HTTP POST attempt: either a response with a status code, or
a raised transport-level exception carrying a message. -/
inductive DeliveryOutcome
  | response (status_code : Int)
  | exn (message : List Char)
deriving DecidableEq, Repr

/-- One entry of the list `dispatch_webhooks` returns (`status_code` is absent
on exception; `error` present only on exception). -/
structure DispatchResult where
  payload : WebhookPayload
  url : List Char
  status_code : Option Int
  success : Bool
  error : Option (List Char)
deriving DecidableEq, Repr

/-- Model of `httpx.Response.is_success`: status in the 2xx success range. -/
def is_success (status_code : Int) : Bool := 200 ≤ status_code ∧ status_code < 300

/-- The result recorded for one payload whose POST was attempted: the
`try/except` around `client.post` in `dispatch_webhooks`. -/
def dispatchResultOf (deliver : List Char → WebhookPayload → DeliveryOutcome)
    (url : List Char) (stripped : WebhookPayload) : DispatchResult :=
  match deliver url stripped with
  | DeliveryOutcome.response st =>
    { payload := stripped, url := url, status_code := some st,
      success := is_success st, error := none }
  | DeliveryOutcome.exn msg =>
    { payload := stripped, url := url, status_code := none,
      success := false, error := some msg }

/-- Model of `dispatch_webhooks(payloads)`: POST each payload to its `_webhook_url`
(popped from the dict first); a payload with no URL, or a falsy/non-string
URL, is logged and skipped (`continue`) without a result entry.  HTTP
delivery is the oracle parameter `deliver`; exceptions are values of
`DeliveryOutcome`, so the dispatcher itself never raises. -/
def dispatch_webhooks (deliver : List Char → WebhookPayload → DeliveryOutcome)
    (payloads : List WebhookPayload) : List DispatchResult :=
  payloads.filterMap (fun p =>
    let stripped := { p with webhook_url := none }
    match p.webhook_url with
    | none => none
    | some url =>
      if url = [] then none
      else some (dispatchResultOf deliver url stripped))

/-! ## Helper lemmas -/

theorem upsert_device_existing (vendorOf : List Char → Option (List Char))
    (table : DeviceTable) (e : BeaconEvent) (d : Device)
    (hd : table (normalize_mac e.mac_address) = some d) :
    (upsert_device vendorOf table e).1 = upsertExisting d e := by
  simp only [upsert_device, hd]

theorem upsertExisting_visit_count (d : Device) (e : BeaconEvent) :
    (upsertExisting d e).visit_count =
      if VISIT_GAP_SECONDS < e.timestamp - d.last_seen then d.visit_count + 1
      else d.visit_count := by
  simp only [upsertExisting]
  split_ifs <;> rfl

theorem upsertExisting_last_seen (d : Device) (e : BeaconEvent) :
    (upsertExisting d e).last_seen = e.timestamp := by
  simp only [upsertExisting]
  split_ifs <;> rfl

theorem upsertExisting_signal (d : Device) (e : BeaconEvent) :
    (upsertExisting d e).signal_strength =
      if e.signal_strength ≠ 0 then e.signal_strength else d.signal_strength := by
  simp only [upsertExisting]
  split_ifs <;> rfl

/-! ## Concrete instances used by witnesses -/

def macCanonEx : List Char := "AA:BB:CC:DD:EE:FF".toList

def mockStr : List Char := "mock".toList

def vendorNone : List Char → Option (List Char) := fun _ => none

def devEx : Device :=
  { mac_address := macCanonEx, first_seen := 0, last_seen := 0,
    signal_strength := -45, visit_count := 1 }

def tableEx : DeviceTable := fun m => if m = macCanonEx then some devEx else none

def mkEv (ts sig : Int) : BeaconEvent :=
  { mac_address := macCanonEx, signal_strength := sig, ssid := none,
    timestamp := ts, source := mockStr }

/-! ## Claims about the registry upsert -/

/-- C2 fails as stated at a gap of exactly 1800 seconds: the claim demands an
increment for every gap of at least 1800 seconds, but `upsert_device`
increments only for gaps strictly greater than 1800 seconds. -/
theorem upsert_visit_gap_cex :
    ¬ (∀ (vendorOf : List Char → Option (List Char)) (table : DeviceTable)
        (d : Device) (e : BeaconEvent),
        table (normalize_mac e.mac_address) = some d →
        1800 ≤ e.timestamp - d.last_seen →
        (upsert_device vendorOf table e).1.visit_count = d.visit_count + 1) := by
  intro h
  exact absurd (h vendorNone tableEx devEx (mkEv 1800 (-50)) (by decide) (by decide))
    (by decide)

/-- C2 (amended): for an existing device, `upsert_device` increments
`visit_count` by exactly one when the gap between the event timestamp and the
stored `last_seen` is strictly greater than 1800 seconds, and leaves it
unchanged when the gap is at most 1800 seconds; in particular a 10-second gap
leaves it unchanged and a 31-minute (1860 s) gap increments it by one. -/
theorem upsert_visit_gap (vendorOf : List Char → Option (List Char))
    (table : DeviceTable) (d : Device) (e : BeaconEvent)
    (hd : table (normalize_mac e.mac_address) = some d) :
    (1800 < e.timestamp - d.last_seen →
      (upsert_device vendorOf table e).1.visit_count = d.visit_count + 1) ∧
    (e.timestamp - d.last_seen ≤ 1800 →
      (upsert_device vendorOf table e).1.visit_count = d.visit_count) := by
  rw [upsert_device_existing vendorOf table e d hd, upsertExisting_visit_count]
  constructor
  · intro h
    rw [if_pos (by simp only [VISIT_GAP_SECONDS]; omega)]
  · intro h
    rw [if_neg (by simp only [VISIT_GAP_SECONDS]; omega)]

theorem upsert_visit_gap_witness :
    (upsert_device vendorNone tableEx (mkEv 1860 (-50))).1.visit_count =
      devEx.visit_count + 1 ∧
    (upsert_device vendorNone tableEx (mkEv 10 (-50))).1.visit_count =
      devEx.visit_count :=
  ⟨(upsert_visit_gap vendorNone tableEx devEx (mkEv 1860 (-50)) (by decide)).1 (by decide),
   (upsert_visit_gap vendorNone tableEx devEx (mkEv 10 (-50)) (by decide)).2 (by decide)⟩

/-- C3: for an existing device, `upsert_device` updates the stored
`signal_strength` to the event's value exactly when the event's
`signal_strength` is non-zero; an event carrying the sentinel 0 leaves the
stored value unchanged. -/
theorem upsert_signal_sentinel (vendorOf : List Char → Option (List Char))
    (table : DeviceTable) (d : Device) (e : BeaconEvent)
    (hd : table (normalize_mac e.mac_address) = some d) :
    (e.signal_strength ≠ 0 →
      (upsert_device vendorOf table e).1.signal_strength = e.signal_strength) ∧
    (e.signal_strength = 0 →
      (upsert_device vendorOf table e).1.signal_strength = d.signal_strength) := by
  rw [upsert_device_existing vendorOf table e d hd, upsertExisting_signal]
  constructor
  · intro h
    rw [if_pos h]
  · intro h
    rw [if_neg (by simp [h])]

theorem upsert_signal_sentinel_witness :
    (upsert_device vendorNone tableEx (mkEv 10 0)).1.signal_strength =
      devEx.signal_strength ∧
    devEx.signal_strength = -45 :=
  ⟨(upsert_signal_sentinel vendorNone tableEx devEx (mkEv 10 0) (by decide)).2 (by decide),
   by decide⟩

/-- C9: for an existing device, `upsert_device` sets `last_seen` to the
event's timestamp unconditionally — no monotonicity check, so an out-of-order
event moves `last_seen` backward (last writer wins). -/
theorem upsert_last_seen_unconditional (vendorOf : List Char → Option (List Char))
    (table : DeviceTable) (d : Device) (e : BeaconEvent)
    (hd : table (normalize_mac e.mac_address) = some d) :
    (upsert_device vendorOf table e).1.last_seen = e.timestamp := by
  rw [upsert_device_existing vendorOf table e d hd, upsertExisting_last_seen]

theorem upsert_last_seen_unconditional_witness :
    (upsert_device vendorNone tableEx (mkEv (-100) (-50))).1.last_seen = -100 ∧
    (mkEv (-100) (-50)).timestamp < devEx.last_seen :=
  ⟨upsert_last_seen_unconditional vendorNone tableEx devEx (mkEv (-100) (-50)) (by decide),
   by decide⟩

/-! ## Classification (C4) -/

/-- C4: `classify_device` is a pure function of the device record, evaluated
in fixed priority order with the first matching rule winning:
(1) locally-administered (randomized) MAC → passerby, regardless of any other
field; (2) visit_count ≥ 5 and age ≥ 3 days → resident; (3) visit_count ≥ 3 →
frequent; (4) visit_count = 1 and signal < -75 → passerby; (5) otherwise
unknown. -/
theorem classify_device_priority (d : Device) :
    (d.is_randomized_mac = true → classify_device d = DeviceClassification.passerby) ∧
    (d.is_randomized_mac = false → 5 ≤ d.visit_count → 3 ≤ age_days d →
      classify_device d = DeviceClassification.resident) ∧
    (d.is_randomized_mac = false → ¬(5 ≤ d.visit_count ∧ 3 ≤ age_days d) →
      3 ≤ d.visit_count → classify_device d = DeviceClassification.frequent) ∧
    (d.is_randomized_mac = false → ¬(5 ≤ d.visit_count ∧ 3 ≤ age_days d) →
      ¬ 3 ≤ d.visit_count → d.visit_count = 1 → d.signal_strength < -75 →
      classify_device d = DeviceClassification.passerby) ∧
    (d.is_randomized_mac = false → ¬(5 ≤ d.visit_count ∧ 3 ≤ age_days d) →
      ¬ 3 ≤ d.visit_count → ¬(d.visit_count = 1 ∧ d.signal_strength < -75) →
      classify_device d = DeviceClassification.unknown) := by
  refine ⟨?_, ?_, ?_, ?_, ?_⟩
  · intro h1
    rw [classify_device, if_pos h1]
  · intro h1 h5 h3
    rw [classify_device, if_neg (by simp [h1]), if_pos ⟨h5, h3⟩]
  · intro h1 hn h3
    rw [classify_device, if_neg (by simp [h1]), if_neg hn, if_pos h3]
  · intro h1 hn hn3 hv hs
    rw [classify_device, if_neg (by simp [h1]), if_neg hn, if_neg hn3, if_pos ⟨hv, hs⟩]
  · intro h1 hn hn3 hn1
    rw [classify_device, if_neg (by simp [h1]), if_neg hn, if_neg hn3, if_neg hn1]

/-- Device matching the spec's resident example: 5 visits over 5 days. -/
def devResident : Device :=
  { mac_address := macCanonEx, first_seen := 0, last_seen := 5 * 86400,
    signal_strength := -45, visit_count := 5 }

/-- Device matching the spec's randomized-MAC example: locally administered
with a high visit count. -/
def devRandom : Device :=
  { mac_address := macCanonEx, first_seen := 0, last_seen := 10 * 86400,
    signal_strength := -45, visit_count := 10, is_randomized_mac := true }

/-- Decidable restatement of the resident age test: since 86400 > 0,
`3 ≤ seconds / 86400` over ℚ is `259200 ≤ seconds`. -/
theorem three_le_age_days_iff (d : Device) :
    3 ≤ age_days d ↔ (259200 : Int) ≤ d.last_seen - d.first_seen := by
  rw [age_days, le_div_iff₀ (by norm_num : (0:ℚ) < 86400)]
  constructor
  · intro h
    exact_mod_cast h
  · intro h
    exact_mod_cast h

theorem classify_device_priority_witness :
    classify_device devResident = DeviceClassification.resident ∧
    classify_device devRandom = DeviceClassification.passerby :=
  ⟨(classify_device_priority devResident).2.1 (by decide) (by decide)
      ((three_le_age_days_iff devResident).mpr (by decide)),
   (classify_device_priority devRandom).1 (by decide)⟩

/-! ## MAC normalization claims (C1) -/

/-- C1: any two valid spellings of the same MAC address (upper/lower case;
colon-, dash-, or dot-separated; or bare 12-hex-digit) normalize to the same
canonical uppercase colon-separated six-octet string, and `normalize_mac` is
idempotent on every input. -/
theorem normalize_mac_canonical_and_idem :
    (∀ d s₁ s₂ : List Char, d.length = 12 → Spelling d s₁ → Spelling d s₂ →
      normalize_mac s₁ = normalize_mac s₂ ∧ normalize_mac s₁ = sepEvery2 ':' d) ∧
    (∀ x : List Char, normalize_mac (normalize_mac x) = normalize_mac x) := by
  constructor
  · intro d s₁ s₂ hd h1 h2
    rw [normalize_spelling hd h1, normalize_spelling hd h2]
    exact ⟨rfl, rfl⟩
  · exact normalize_mac_idem

def macSpellLower : List Char := "aabbccddeeff".toList

def macSpellDash : List Char := "aa-bb-cc-dd-ee-ff".toList

def macSpellDot : List Char := "AABB.CCDD.EEFF".toList

def macDigitsEx : List Char := "AABBCCDDEEFF".toList

theorem normalize_mac_canonical_and_idem_witness :
    (normalize_mac macSpellDash = normalize_mac macSpellDot ∧
      normalize_mac macSpellDash = sepEvery2 ':' macDigitsEx) ∧
    normalize_mac (normalize_mac macSpellDash) = normalize_mac macSpellDash :=
  ⟨normalize_mac_canonical_and_idem.1 macDigitsEx macSpellDash macSpellDot (by decide)
      ⟨macSpellLower, by decide, by decide, Or.inr (Or.inr (Or.inl (by decide)))⟩
      ⟨macDigitsEx, by decide, by decide, Or.inr (Or.inr (Or.inr (by decide)))⟩,
   normalize_mac_canonical_and_idem.2 macSpellDash⟩

/-! ## Presence change detection (C5) -/

/-- Number of occurrences of `x` in `l` (uniform decidable-equality form). -/
def occurrences {α : Type} [DecidableEq α] (x : α) (l : List α) : Nat :=
  (l.filter (fun y => y = x)).length

theorem occurrences_nil {α : Type} [DecidableEq α] (x : α) : occurrences x ([] : List α) = 0 :=
  rfl

theorem occurrences_cons {α : Type} [DecidableEq α] (x a : α) (l : List α) :
    occurrences x (a :: l) =
      (if a = x then 1 else 0) + occurrences x l := by
  by_cases h : a = x
  · simp [occurrences, List.filter_cons, h, Nat.add_comm]
  · simp [occurrences, List.filter_cons, h]

theorem occurrences_append {α : Type} [DecidableEq α] (x : α) (l₁ l₂ : List α) :
    occurrences x (l₁ ++ l₂) = occurrences x l₁ + occurrences x l₂ := by
  simp [occurrences, List.filter_append]

theorem occurrences_eq_zero {α : Type} [DecidableEq α] {x : α} {l : List α}
    (h : x ∉ l) : occurrences x l = 0 := by
  induction l with
  | nil => rfl
  | cons a t ih =>
    rw [occurrences_cons, if_neg (by intro hax; subst hax; exact h (List.mem_cons_self a t)),
      ih (fun hx => h (List.mem_cons_of_mem a hx))]

theorem occurrences_eq_one {α : Type} [DecidableEq α] {x : α} {l : List α}
    (hnd : l.Nodup) (hm : x ∈ l) : occurrences x l = 1 := by
  induction l with
  | nil => exact absurd hm (List.not_mem_nil x)
  | cons a t ih =>
    rw [List.nodup_cons] at hnd
    rcases List.mem_cons.mp hm with rfl | hm'
    · rw [occurrences_cons, if_pos rfl, occurrences_eq_zero hnd.1]
    · rw [occurrences_cons, ih hnd.2 hm',
        if_neg (by intro hax; subst hax; exact hnd.1 hm')]

theorem occurrences_pair_map (s : List Char) (m : List Char) (l : List (List Char)) :
    occurrences (m, s) (l.map (fun x => (x, s))) = occurrences m l := by
  induction l with
  | nil => rfl
  | cons a t ih =>
    rw [List.map_cons, occurrences_cons, occurrences_cons, ih]
    by_cases h : a = m
    · rw [if_pos (by rw [h]), if_pos h]
    · rw [if_neg (by simp [h]), if_neg h]

theorem occurrences_pair_map_ne {s s' : List Char} (hs : s ≠ s') (m : List Char)
    (l : List (List Char)) :
    occurrences (m, s') (l.map (fun x => (x, s))) = 0 := by
  apply occurrences_eq_zero
  intro hmem
  rcases List.mem_map.mp hmem with ⟨x, -, hx⟩
  exact hs (congrArg Prod.snd hx)

/-- C5: one detection pass emits exactly one (mac, "arrive") entry per MAC
newly inside the grace window, exactly one (mac, "depart") entry per
previously-present MAC now outside it, every emitted entry is of one of these
two forms, and a second pass over unchanged device state emits nothing.  The
previously-present set carries no duplicates (it starts empty and is always
replaced by a deduplicated query result). -/
theorem detect_presence_changes_spec (prev : List (List Char))
    (devices : List Device) (now grace_seconds : Int) (hnd : prev.Nodup) :
    (∀ m, m ∈ present_macs devices now grace_seconds → m ∉ prev →
      occurrences (m, arriveStr)
        (detect_presence_changes prev devices now grace_seconds).1 = 1) ∧
    (∀ m, m ∈ prev → m ∉ present_macs devices now grace_seconds →
      occurrences (m, departStr)
        (detect_presence_changes prev devices now grace_seconds).1 = 1) ∧
    (∀ p ∈ (detect_presence_changes prev devices now grace_seconds).1,
      (p.2 = arriveStr ∧ p.1 ∈ present_macs devices now grace_seconds ∧ p.1 ∉ prev) ∨
      (p.2 = departStr ∧ p.1 ∈ prev ∧ p.1 ∉ present_macs devices now grace_seconds)) ∧
    (detect_presence_changes
      (detect_presence_changes prev devices now grace_seconds).2
      devices now grace_seconds).1 = [] := by
  have harr_ne : arriveStr ≠ departStr := by decide
  refine ⟨?_, ?_, ?_, ?_⟩
  · intro m hmem hnot
    have hndcur : (present_macs devices now grace_seconds).Nodup := by
      rw [present_macs]
      exact List.nodup_dedup _
    have hm1 : m ∈ List.filter (fun m => decide (m ∉ prev))
        (present_macs devices now grace_seconds) := by
      rw [List.mem_filter]
      exact ⟨hmem, by simpa using hnot⟩
    show occurrences (m, arriveStr) (_ ++ _) = 1
    rw [occurrences_append, occurrences_pair_map,
      occurrences_pair_map_ne (fun h => harr_ne h.symm),
      occurrences_eq_one (hndcur.filter _) hm1]
  · intro m hmem hnot
    have hm1 : m ∈ List.filter
        (fun m => decide (m ∉ present_macs devices now grace_seconds)) prev := by
      rw [List.mem_filter]
      exact ⟨hmem, by simpa using hnot⟩
    show occurrences (m, departStr) (_ ++ _) = 1
    rw [occurrences_append, occurrences_pair_map,
      occurrences_pair_map_ne harr_ne,
      occurrences_eq_one (hnd.filter _) hm1]
  · intro p hp
    rcases List.mem_append.mp hp with hp' | hp'
    · rcases List.mem_map.mp hp' with ⟨x, hx, rfl⟩
      rcases List.mem_filter.mp hx with ⟨hx1, hx2⟩
      exact Or.inl ⟨rfl, hx1, by simpa using hx2⟩
    · rcases List.mem_map.mp hp' with ⟨x, hx, rfl⟩
      rcases List.mem_filter.mp hx with ⟨hx1, hx2⟩
      exact Or.inr ⟨rfl, hx1, by simpa using hx2⟩
  · show (detect_presence_changes (present_macs devices now grace_seconds)
      devices now grace_seconds).1 = []
    simp only [detect_presence_changes]
    rw [List.filter_eq_nil_iff.mpr (fun a ha => by simpa using ha)]
    rfl

theorem detect_presence_changes_spec_witness :
    occurrences (macCanonEx, arriveStr)
      (detect_presence_changes [] [devEx] 0 180).1 = 1 ∧
    (detect_presence_changes (detect_presence_changes [] [devEx] 0 180).2
      [devEx] 0 180).1 = [] :=
  ⟨(detect_presence_changes_spec [] [devEx] 0 180 List.nodup_nil).1
      macCanonEx (by decide) (by decide),
   (detect_presence_changes_spec [] [devEx] 0 180 List.nodup_nil).2.2.2⟩

/-! ## Persona device assignment (C8) -/

/-- C8: `assign_device` fails with the not-found error when no device exists
for the normalized MAC; fails with the already-assigned error naming the other
owner when the MAC is linked to a different person; and is idempotent:
re-assigning a MAC to the person it is already linked to is a no-op success
returning the existing link. -/
theorem assign_device_spec (db : PersonaDb) (person_id : Int) (mac_address : List Char) :
    (db.devices.find? (fun d => d.mac_address = normalize_mac mac_address) = none →
      assign_device db person_id mac_address =
        Except.error ("Device ".toList ++ normalize_mac mac_address ++
          " does not exist".toList)) ∧
    (∀ dev link other,
      db.devices.find? (fun d => d.mac_address = normalize_mac mac_address) = some dev →
      db.links.find? (fun l => l.mac_address = normalize_mac mac_address) = some link →
      link.person_id ≠ person_id →
      db.persons.find? (fun p => p.id = some link.person_id) = some other →
      assign_device db person_id mac_address =
        Except.error ("Device ".toList ++ normalize_mac mac_address ++
          " is already assigned to ".toList ++ other.name)) ∧
    (∀ dev link,
      db.devices.find? (fun d => d.mac_address = normalize_mac mac_address) = some dev →
      db.links.find? (fun l => l.mac_address = normalize_mac mac_address) = some link →
      link.person_id = person_id →
      ∃ link', assign_device db person_id mac_address = Except.ok (link', db) ∧
        link'.person_id = person_id ∧
        link'.mac_address = normalize_mac mac_address ∧
        link' ∈ db.links) := by
  refine ⟨?_, ?_, ?_⟩
  · intro h
    simp only [assign_device, h]
  · intro dev link other hdev hlink hne hother
    simp only [assign_device, hdev, hlink, if_pos hne, hother]
  · intro dev link hdev hlink heq
    have hmac : link.mac_address = normalize_mac mac_address := by
      have := List.find?_some hlink
      simpa using this
    have hmem : link ∈ db.links := List.mem_of_find?_eq_some hlink
    have hkey : ∃ l', db.links.find?
        (fun l => l.person_id = person_id ∧
          l.mac_address = normalize_mac mac_address) = some l' := by
      rcases hf : db.links.find? (fun l => l.person_id = person_id ∧
          l.mac_address = normalize_mac mac_address) with - | l'
      · exfalso
        have := List.find?_eq_none.mp hf link hmem
        simp only [decide_eq_true_eq] at this
        exact this ⟨heq, hmac⟩
      · exact ⟨l', hf⟩
    obtain ⟨l', hl'⟩ := hkey
    have hprops := List.find?_some hl'
    simp only [decide_eq_true_eq] at hprops
    refine ⟨l', ?_, hprops.1, hprops.2, List.mem_of_find?_eq_some hl'⟩
    simp only [assign_device, hdev, hlink, hl']
    rw [if_neg (show ¬ link.person_id ≠ person_id from fun hne => hne heq)]

def aliceStr : List Char := "Alice".toList

def personAlice : Person := { id := some 1, name := aliceStr, created_at := 0 }

def linkAlice : PersonDevice := { person_id := 1, mac_address := macCanonEx }

def personaDbEx : PersonaDb :=
  { devices := [devEx], persons := [personAlice], links := [linkAlice] }

def macOtherEx : List Char := "00:11:22:33:44:55".toList

theorem assign_device_spec_witness :
    assign_device personaDbEx 1 macOtherEx =
      Except.error ("Device ".toList ++ normalize_mac macOtherEx ++
        " does not exist".toList) ∧
    assign_device personaDbEx 2 macCanonEx =
      Except.error ("Device ".toList ++ normalize_mac macCanonEx ++
        " is already assigned to ".toList ++ personAlice.name) ∧
    assign_device personaDbEx 1 macCanonEx = Except.ok (linkAlice, personaDbEx) := by
  refine ⟨?_, ?_, ?_⟩
  · exact (assign_device_spec personaDbEx 1 macOtherEx).1 (by decide)
  · exact (assign_device_spec personaDbEx 2 macCanonEx).2.1 devEx linkAlice personAlice
      (by decide) (by decide) (by decide) (by decide)
  · obtain ⟨l', hok, -, -, hmem⟩ :=
      (assign_device_spec personaDbEx 1 macCanonEx).2.2 devEx linkAlice
        (by decide) (by decide) (by decide)
    have hl : l' = linkAlice := by
      simpa [personaDbEx] using hmem
    rw [← hl]
    exact hok

/-! ## Alert rule matching (C6, C10) -/

/-- Rule matching as the specification states it, written from the spec's
words for comparison with the code translation: the trigger filter admits the
event, then exactly one of three modes in priority order — person-id
(match iff the resolved person id equals it), else MAC (match iff it equals
the normalized event MAC), else wildcard (always match). -/
def ruleMatchesSpec (resolved_pid : Option Int) (mac event_type : List Char)
    (rule : AlertRule) : Bool :=
  (match rule.trigger_type with
    | TriggerType.arrive => decide (event_type = arriveStr)
    | TriggerType.depart => decide (event_type = departStr)
    | TriggerType.both => true) &&
  (match rule.person_id with
    | some rpid => decide (resolved_pid = some rpid)
    | none =>
      match rule.mac_address with
      | some rmac => decide (mac = rmac)
      | none => true)

theorem filterMap_if {α β : Type} (p : α → Bool) (f : α → β) (l : List α) :
    l.filterMap (fun a => if p a then some (f a) else none) = (l.filter p).map f := by
  induction l with
  | nil => rfl
  | cons a t ih =>
    by_cases h : p a
    · simp [List.filterMap_cons, List.filter_cons, h, ih]
    · simp [List.filterMap_cons, List.filter_cons, h, ih]

theorem eval_inner_eq (resolved_pid : Option Int)
    (now_iso mac event_type : List Char) (device_name resolved_name : Option (List Char))
    (rule : AlertRule) :
    (if rule.trigger_type = TriggerType.arrive ∧ event_type ≠ arriveStr then none
     else if rule.trigger_type = TriggerType.depart ∧ event_type ≠ departStr then none
     else
       let matched : Bool :=
         match rule.person_id with
         | some rpid => resolved_pid = some rpid
         | none =>
           match rule.mac_address with
           | some rmac => mac = rmac
           | none => true
       if matched then
         some (mkPayload now_iso mac event_type device_name resolved_pid resolved_name rule)
       else none) =
    (if ruleMatchesSpec resolved_pid mac event_type rule then
      some (mkPayload now_iso mac event_type device_name resolved_pid resolved_name rule)
     else none) := by
  have hne : departStr ≠ arriveStr := by decide
  have hne' : arriveStr ≠ departStr := by decide
  rcases ht : rule.trigger_type <;> rcases hp : rule.person_id <;>
    rcases hm : rule.mac_address <;>
    by_cases he1 : event_type = arriveStr <;> by_cases he2 : event_type = departStr <;>
    simp [ruleMatchesSpec, ht, hp, hm, he1, he2, hne, hne']

/-- C6: `evaluate_presence_change` emits a payload for exactly the enabled
rules accepted by the spec's match procedure: trigger filter first, then
person-id mode, else MAC mode, else wildcard — and a rule with trigger type
"arrive" never matches a "depart" event and vice versa. -/
theorem evaluate_presence_change_modes (db : AlertDb)
    (now_iso mac_address event_type : List Char)
    (device_name person_name : Option (List Char)) :
    (evaluate_presence_change db now_iso mac_address event_type device_name person_name =
      ((db.rules.filter (fun r => r.enabled)).filter
        (ruleMatchesSpec (resolve_person db (normalize_mac mac_address) person_name).1
          (normalize_mac mac_address) event_type)).map
        (fun rule => mkPayload now_iso (normalize_mac mac_address) event_type device_name
          (resolve_person db (normalize_mac mac_address) person_name).1
          (resolve_person db (normalize_mac mac_address) person_name).2 rule)) ∧
    (∀ (rpid : Option Int) (m : List Char) (rule : AlertRule),
      rule.trigger_type = TriggerType.arrive →
      ruleMatchesSpec rpid m departStr rule = false) ∧
    (∀ (rpid : Option Int) (m : List Char) (rule : AlertRule),
      rule.trigger_type = TriggerType.depart →
      ruleMatchesSpec rpid m arriveStr rule = false) := by
  refine ⟨?_, ?_, ?_⟩
  · show (db.rules.filter (fun r => r.enabled)).filterMap _ = _
    rw [List.filterMap_congr (fun rule _ => eval_inner_eq
      (resolve_person db (normalize_mac mac_address) person_name).1 now_iso
      (normalize_mac mac_address) event_type device_name
      (resolve_person db (normalize_mac mac_address) person_name).2 rule)]
    exact filterMap_if _ _ _
  · intro rpid m rule ht
    simp [ruleMatchesSpec, ht, (by decide : ¬ departStr = arriveStr)]
  · intro rpid m rule ht
    simp [ruleMatchesSpec, ht, (by decide : ¬ arriveStr = departStr)]

theorem resolve_person_none (db : AlertDb) (mac : List Char)
    (person_name : Option (List Char))
    (h : db.links.find? (fun l => l.mac_address = mac) = none) :
    (resolve_person db mac person_name).1 = none := by
  simp only [resolve_person, h, Option.none_bind]
  split_ifs <;> rfl

theorem eval_mem {db : AlertDb} {now_iso mac_address event_type : List Char}
    {device_name person_name : Option (List Char)} {p : WebhookPayload}
    (hp : p ∈ evaluate_presence_change db now_iso mac_address event_type
      device_name person_name) :
    ∃ rule, p = mkPayload now_iso (normalize_mac mac_address) event_type device_name
      (resolve_person db (normalize_mac mac_address) person_name).1
      (resolve_person db (normalize_mac mac_address) person_name).2 rule := by
  obtain ⟨rule, -, hg⟩ := List.mem_filterMap.mp hp
  refine ⟨rule, ?_⟩
  by_cases h1 : rule.trigger_type = TriggerType.arrive ∧ event_type ≠ arriveStr
  · rw [if_pos h1] at hg
    exact absurd hg (by simp)
  rw [if_neg h1] at hg
  by_cases h2 : rule.trigger_type = TriggerType.depart ∧ event_type ≠ departStr
  · rw [if_pos h2] at hg
    exact absurd hg (by simp)
  rw [if_neg h2] at hg
  have hg' : (if (match rule.person_id with
      | some rpid =>
        decide ((resolve_person db (normalize_mac mac_address) person_name).1 = some rpid)
      | none =>
        match rule.mac_address with
        | some rmac => decide (normalize_mac mac_address = rmac)
        | none => true) = true then
      some (mkPayload now_iso (normalize_mac mac_address) event_type device_name
        (resolve_person db (normalize_mac mac_address) person_name).1
        (resolve_person db (normalize_mac mac_address) person_name).2 rule)
    else none) = some p := hg
  split_ifs at hg'
  exact (Option.some.inj hg').symm

/-- C10: a payload's `person` field is null whenever no PersonDevice link
exists for the normalized event MAC — even when the caller supplies a
`person_name` argument — and it is non-null only when the resolution produced
both a person id and a non-empty person name (in which case it carries
exactly those). -/
theorem payload_person_resolution (db : AlertDb)
    (now_iso mac_address event_type : List Char)
    (device_name person_name : Option (List Char)) :
    (db.links.find? (fun l => l.mac_address = normalize_mac mac_address) = none →
      ∀ p ∈ evaluate_presence_change db now_iso mac_address event_type
        device_name person_name, p.person = none) ∧
    (∀ p ∈ evaluate_presence_change db now_iso mac_address event_type
        device_name person_name, p.person ≠ none →
      ∃ pid pname,
        (resolve_person db (normalize_mac mac_address) person_name).1 = some pid ∧
        (resolve_person db (normalize_mac mac_address) person_name).2 = some pname ∧
        pname ≠ [] ∧ p.person = some { id := pid, name := pname }) := by
  constructor
  · intro h p hp
    obtain ⟨rule, rfl⟩ := eval_mem hp
    simp only [mkPayload, resolve_person_none db (normalize_mac mac_address) person_name h]
  · intro p hp hne
    obtain ⟨rule, rfl⟩ := eval_mem hp
    rcases hr1 : (resolve_person db (normalize_mac mac_address) person_name).1
      with - | pid
    · refine absurd ?_ hne
      simp only [mkPayload, hr1]
    rcases hr2 : (resolve_person db (normalize_mac mac_address) person_name).2
      with - | pname
    · refine absurd ?_ hne
      simp only [mkPayload, hr1, hr2]
    by_cases hc : pid ≠ 0 ∧ pname ≠ []
    · refine ⟨pid, pname, rfl, rfl, hc.2, ?_⟩
      simp only [mkPayload, if_pos hc]
    · refine absurd ?_ hne
      simp only [mkPayload, hr1, hr2, if_neg hc]

def urlStr : List Char := "https://example.com/hook".toList

def nowIsoStr : List Char := "2024-01-15T10:30:00Z".toList

def ruleNameStr : List Char := "Test".toList

def ruleArrive : AlertRule :=
  { id := some 1, name := ruleNameStr, trigger_type := TriggerType.arrive,
    person_id := none, mac_address := none, webhook_url := urlStr,
    enabled := true, created_at := 0 }

def ruleDepart : AlertRule :=
  { ruleArrive with id := some 2, trigger_type := TriggerType.depart }

def ruleWild : AlertRule :=
  { ruleArrive with id := some 3, trigger_type := TriggerType.both }

def alertDbNoLink : AlertDb := { rules := [ruleWild], links := [], persons := [] }

theorem evaluate_presence_change_modes_witness :
    ruleMatchesSpec (some 1) macCanonEx departStr ruleArrive = false ∧
    ruleMatchesSpec (some 1) macCanonEx arriveStr ruleDepart = false :=
  ⟨(evaluate_presence_change_modes alertDbNoLink nowIsoStr macCanonEx departStr
      none none).2.1 (some 1) macCanonEx ruleArrive rfl,
   (evaluate_presence_change_modes alertDbNoLink nowIsoStr macCanonEx arriveStr
      none none).2.2 (some 1) macCanonEx ruleDepart rfl⟩

theorem payload_person_resolution_witness :
    (mkPayload nowIsoStr (normalize_mac macCanonEx) arriveStr none
      (resolve_person alertDbNoLink (normalize_mac macCanonEx) (some aliceStr)).1
      (resolve_person alertDbNoLink (normalize_mac macCanonEx) (some aliceStr)).2
      ruleWild).person = none :=
  (payload_person_resolution alertDbNoLink nowIsoStr macCanonEx arriveStr none
    (some aliceStr)).1 (by decide) _ (by decide)

/-! ## Webhook dispatch (C7) -/

def payloadNoUrl : WebhookPayload :=
  { event := arriveStr, timestamp := nowIsoStr, device_mac := macCanonEx,
    device_name := macCanonEx, person := none, rule_id := some 3,
    rule_name := ruleNameStr, webhook_url := none }

def deliverOk : List Char → WebhookPayload → DeliveryOutcome :=
  fun _ _ => DeliveryOutcome.response 200

/-- C7 fails as stated: a payload carrying no `_webhook_url` key is skipped
with a warning (`continue`), producing no result entry, so the result list can
be shorter than the payload list. -/
theorem dispatch_webhooks_cex :
    ¬ (∀ (deliver : List Char → WebhookPayload → DeliveryOutcome)
        (payloads : List WebhookPayload),
        (dispatch_webhooks deliver payloads).length = payloads.length) := by
  intro h
  exact absurd (h deliverOk [payloadNoUrl]) (by decide)

theorem dispatch_webhooks_map (deliver : List Char → WebhookPayload → DeliveryOutcome) :
    ∀ payloads : List WebhookPayload,
    (∀ p ∈ payloads, p.webhook_url ≠ none ∧ p.webhook_url ≠ some []) →
    dispatch_webhooks deliver payloads = payloads.map (fun p =>
      dispatchResultOf deliver (p.webhook_url.getD []) { p with webhook_url := none })
  | [], _ => rfl
  | p :: t, h => by
    have iht := dispatch_webhooks_map deliver t
      (fun q hq => h q (List.mem_cons_of_mem p hq))
    rcases hp : p.webhook_url with - | url
    · exact absurd hp (h p (List.mem_cons_self p t)).1
    have hne : url ≠ [] := by
      intro hu
      exact (h p (List.mem_cons_self p t)).2 (by rw [hp, hu])
    simp only [dispatch_webhooks, List.filterMap_cons, List.map_cons] at iht ⊢
    rw [hp]
    simp only [if_neg hne, Option.getD_some]
    rw [iht]
  termination_by payloads => payloads.length

/-- C7 (amended): for every list of N payloads each carrying a non-empty
webhook URL string, `dispatch_webhooks` returns exactly N results, one per
payload in order; a delivery that raises a transport-level exception is
recorded as a failure carrying the exception message, and a delivery that
returns an HTTP response is recorded with `success` iff the status is in the
2xx range.  Exceptions are never propagated: they are data of the delivery
oracle, folded into result entries.  (Payloads without a URL are skipped with
a warning and produce no result entry, which is what forces the URL premise.) -/
theorem dispatch_webhooks_ok (deliver : List Char → WebhookPayload → DeliveryOutcome)
    (payloads : List WebhookPayload)
    (h : ∀ p ∈ payloads, p.webhook_url ≠ none ∧ p.webhook_url ≠ some []) :
    (dispatch_webhooks deliver payloads).length = payloads.length ∧
    dispatch_webhooks deliver payloads = payloads.map (fun p =>
      dispatchResultOf deliver (p.webhook_url.getD []) { p with webhook_url := none }) ∧
    (∀ url body msg, deliver url body = DeliveryOutcome.exn msg →
      dispatchResultOf deliver url body =
        { payload := body, url := url, status_code := none, success := false,
          error := some msg }) ∧
    (∀ url body st, deliver url body = DeliveryOutcome.response st →
      dispatchResultOf deliver url body =
        { payload := body, url := url, status_code := some st,
          success := is_success st, error := none }) := by
  refine ⟨?_, dispatch_webhooks_map deliver payloads h, ?_, ?_⟩
  · rw [dispatch_webhooks_map deliver payloads h, List.length_map]
  · intro url body msg hmsg
    simp only [dispatchResultOf, hmsg]
  · intro url body st hst
    simp only [dispatchResultOf, hst]

def url2Str : List Char := "https://example.com/hook2".toList

def connFailStr : List Char := "Connection failed".toList

def payloadWithUrl : WebhookPayload := { payloadNoUrl with webhook_url := some urlStr }

def payloadWithUrl2 : WebhookPayload :=
  { payloadNoUrl with event := departStr, webhook_url := some url2Str }

def deliverMixed : List Char → WebhookPayload → DeliveryOutcome :=
  fun url _ =>
    if url = urlStr then DeliveryOutcome.exn connFailStr
    else DeliveryOutcome.response 200

theorem dispatch_webhooks_ok_witness :
    (dispatch_webhooks deliverMixed [payloadWithUrl, payloadWithUrl2]).length = 2 ∧
    dispatchResultOf deliverMixed urlStr { payloadWithUrl with webhook_url := none } =
      { payload := { payloadWithUrl with webhook_url := none }, url := urlStr,
        status_code := none, success := false, error := some connFailStr } :=
  ⟨(dispatch_webhooks_ok deliverMixed [payloadWithUrl, payloadWithUrl2] (by decide)).1,
   (dispatch_webhooks_ok deliverMixed [payloadWithUrl, payloadWithUrl2] (by decide)).2.2.1
      urlStr { payloadWithUrl with webhook_url := none } connFailStr (by decide)⟩
